import Mathlib

/-!
Verification development for the `internal/safety` package of the `qcmd`
repository: a shallow embedding of the command-safety classification engine
(`checker.go`, `patterns.go`) together with theorems about it.

Strings are modelled as `List Char` at the core (with `String` wrappers using
the names of the Go source).  The Go regular expressions are embedded as terms
of a small regex AST (`RE`), one constructor per construct actually used by the
pattern registries, and matched by a fuel-driven backtracking matcher whose
alternative ordering (greedy first, lazy first) mirrors the leftmost-first
match semantics of Go's `regexp` package.
-/

namespace QcmdSafety

/-- Character class of RE2's `\s`, namely `[\t\n\f\r ]`. -/
def isSpc (c : Char) : Bool :=
  c = ' ' || c = '\t' || c = '\n' || c = '\x0c' || c = '\r'

/-- Unicode white space in the sense of Go's `unicode.IsSpace`, used by
`strings.TrimSpace`: the Latin-1 spaces plus the Unicode `White_Space`
code points. -/
def goIsSpace (c : Char) : Bool :=
  c = ' ' || c = '\t' || c = '\n' || c = '\x0b' || c = '\x0c' || c = '\r' ||
  c.toNat = 0x85 || c.toNat = 0xA0 || c.toNat = 0x1680 ||
  (0x2000 ≤ c.toNat && c.toNat ≤ 0x200A) ||
  c.toNat = 0x2028 || c.toNat = 0x2029 || c.toNat = 0x202F ||
  c.toNat = 0x205F || c.toNat = 0x3000

theorem goIsSpace_of_isSpc {c : Char} (h : isSpc c = true) : goIsSpace c = true := by
  simp only [isSpc, Bool.or_eq_true, decide_eq_true_eq] at h
  rcases h with ((((rfl | rfl) | rfl) | rfl) | rfl) <;> decide

/-- Model of `strings.TrimSpace` acting on the front of the string. -/
def trimLeft (l : List Char) : List Char :=
  l.dropWhile goIsSpace

/-- Model of `strings.TrimSpace` acting on the back of the string. -/
def trimRight (l : List Char) : List Char :=
  (l.reverse.dropWhile goIsSpace).reverse

/-- Model of `strings.TrimSpace`: drop leading and trailing Unicode space. -/
def trimSpace (l : List Char) : List Char :=
  trimRight (trimLeft l)

/-- Worker for `spaceRegex.ReplaceAllString(cmd, " ")` with `spaceRegex`
compiled from the pattern `\s+`: every maximal run of `\s` characters is
replaced by a single ASCII space.  The flag records whether the previous
character belonged to a run that has already emitted its space. -/
def collapseSpacesAux : Bool → List Char → List Char
  | _, [] => []
  | inRun, c :: rest =>
    if isSpc c then
      if inRun then collapseSpacesAux true rest
      else ' ' :: collapseSpacesAux true rest
    else c :: collapseSpacesAux false rest

/-- Model of `spaceRegex.ReplaceAllString(cmd, " ")` from `Normalize`. -/
def collapseSpaces (l : List Char) : List Char :=
  collapseSpacesAux false l

/-- Model of one `strings.ReplaceAll(cmd, "//", "/")` pass: non-overlapping
replacement, scanning left to right. -/
def replaceDoubleSlash : List Char → List Char
  | '/' :: '/' :: rest => '/' :: replaceDoubleSlash rest
  | c :: rest => c :: replaceDoubleSlash rest
  | [] => []

/-- Model of `strings.Contains(cmd, "//")`. -/
def containsDoubleSlash : List Char → Bool
  | '/' :: '/' :: _ => true
  | _ :: rest => containsDoubleSlash rest
  | [] => false

/-- The `for strings.Contains(cmd, "//") { cmd = strings.ReplaceAll(...) }`
loop of `Normalize`, driven by fuel.  Each iteration that fires strictly
shortens the string, so `l.length` rounds of fuel always suffice
(`containsDoubleSlash_collapseSlashesFuel` below). -/
def collapseSlashesFuel : Nat → List Char → List Char
  | 0, l => l
  | fuel + 1, l =>
    if containsDoubleSlash l then collapseSlashesFuel fuel (replaceDoubleSlash l)
    else l

/-- Model of the double-slash normalization loop of `Normalize`. -/
def collapseSlashes (l : List Char) : List Char :=
  collapseSlashesFuel l.length l

/-- Model of `safety.Normalize` on character lists: trim, collapse whitespace
runs to a single space, collapse `//` until none remains. -/
def normalizeL (l : List Char) : List Char :=
  collapseSlashes (collapseSpaces (trimSpace l))

/-- Model of `safety.Normalize`. -/
def Normalize (s : String) : String :=
  ⟨normalizeL s.data⟩

/-- Regex AST covering exactly the constructs used by the `safety` package
patterns: literal characters, character classes, concatenation, alternation,
greedy `?`, greedy `*`, lazy `*?`, and the end-of-text anchor `$`. -/
inductive RE where
  | eps
  | chr (c : Char)
  | cls (p : Char → Bool)
  | cat (a b : RE)
  | alt (a b : RE)
  | opt (a : RE)
  | star (a : RE)
  | lstar (a : RE)
  | eos

/-- Greedy `+`, encoded as the expression followed by its greedy star. -/
def RE.plus (a : RE) : RE := .cat a (.star a)

/-- Lazy `+?`, encoded as the expression followed by its lazy star. -/
def RE.lplus (a : RE) : RE := .cat a (.lstar a)

/-- Concatenation of a list of regexes. -/
def reSeq (rs : List RE) : RE := rs.foldr RE.cat .eps

/-- Literal string regex. -/
def reStr (cs : List Char) : RE := reSeq (cs.map RE.chr)

/-- Case-insensitive literal character, for the one `(?i)` pattern. -/
def RE.chrCI (c : Char) : RE := .cls (fun d => d.toLower = c.toLower)

/-- Case-insensitive literal string regex. -/
def reStrCI (cs : List Char) : RE := reSeq (cs.map RE.chrCI)

/-- Class `\s` as a regex. -/
def clsSpc : RE := .cls isSpc

/-- Class `.` (any character but newline) as a regex. -/
def dotAny : RE := .cls (fun c => !(c = '\n'))

/-- Class `[rRf]` of the case-sensitive `rm` patterns. -/
def clsRRf : RE := .cls (fun c => c = 'r' || c = 'R' || c = 'f')

/-- Class `[rR]` of the `chmod`/`chown` patterns. -/
def clsRR : RE := .cls (fun c => c = 'r' || c = 'R')

/-- Class `["']` of the shell-wrapper patterns. -/
def clsQuote : RE := .cls (fun c => c = '"' || c = '\x27')

/-- Backtracking matcher in continuation-passing style: `mLoop fuel r s k`
matches a prefix of `s` against `r` and passes each candidate remaining
suffix to the continuation `k`, in Go's leftmost-first order (greedy
operators try the longer match first, lazy ones the shorter).  The fuel
bounds only the recursion depth; `engineFuel` below is ample for every
string a call consumes. -/
def mLoop {α : Type} (fuel : Nat) (r : RE) (s : List Char) (k : List Char → Option α) :
    Option α :=
  match fuel with
  | 0 => none
  | fuel + 1 =>
    match r with
    | .eps => k s
    | .chr c =>
      match s with
      | [] => none
      | d :: rest => if d = c then k rest else none
    | .cls p =>
      match s with
      | [] => none
      | d :: rest => if p d then k rest else none
    | .cat a b => mLoop fuel a s (fun s2 => mLoop fuel b s2 k)
    | .alt a b => (mLoop fuel a s k).orElse (fun _ => mLoop fuel b s k)
    | .opt a => (mLoop fuel a s k).orElse (fun _ => k s)
    | .star a =>
      (mLoop fuel a s (fun s2 => mLoop fuel (.star a) s2 k)).orElse (fun _ => k s)
    | .lstar a =>
      (k s).orElse (fun _ => mLoop fuel a s (fun s2 => mLoop fuel (.lstar a) s2 k))
    | .eos =>
      match s with
      | [] => k []
      | _ :: _ => none

/-- Recursion-depth budget handed to the matcher, generous for the pattern
sizes of the registry (a match never nests deeper than a small multiple of
the input length). -/
def engineFuel (s : List Char) : Nat := 64 * (s.length + 2)

/-- Unanchored search at every start position, leftmost first. -/
def matchTails (fuel : Nat) (r : RE) : List Char → Bool
  | [] => (mLoop fuel r [] (fun _ => some ())).isSome
  | s@(_ :: rest) =>
    (mLoop fuel r s (fun _ => some ())).isSome || matchTails fuel r rest

/-- Model of `Regexp.MatchString`: does `r` match somewhere in `s`? -/
def matchString (r : RE) (s : List Char) : Bool :=
  matchTails (engineFuel s) r s

/-- Severity enumeration of `safety.DangerLevel` (`Safe = 0 < Caution = 1 <
Danger = 2`). -/
inductive DangerLevel where
  | Safe
  | Caution
  | Danger
deriving DecidableEq

/-- Numeric value of a `DangerLevel`, as declared by the Go `iota` block;
the source compares levels with `<`/`>` on these integers. -/
def DangerLevel.toNat : DangerLevel → Nat
  | .Safe => 0
  | .Caution => 1
  | .Danger => 2

/-- Model of `safety.CheckResult`. -/
structure CheckResult where
  Level : DangerLevel
  Pattern : String
  Description : String
  Category : String
deriving DecidableEq

/-- Model of `safety.Pattern`: `re` embeds the compiled `Regex` field and
`src` is the pattern text that `Regex.String()` reports. -/
structure Pattern where
  re : RE
  src : String
  Level : DangerLevel
  Description : String
  Category : String

/-- Danger pattern `(?i)rm\s+(-[rf]+\s+)*(/|~|\$HOME)(\s|$)`. -/
def dangerPat1 : Pattern :=
  { re := reSeq [RE.chrCI 'r', RE.chrCI 'm', RE.plus clsSpc,
      .star (reSeq [.chr '-',
        RE.plus (.cls (fun c => c.toLower = 'r' || c.toLower = 'f')), RE.plus clsSpc]),
      .alt (.chr '/') (.alt (.chr '~') (reStrCI ("$HOME".data))),
      .alt clsSpc .eos]
    src := "(?i)rm\\s+(-[rf]+\\s+)*(/|~|\\$HOME)(\\s|$)"
    Level := .Danger
    Description := "Recursive delete on root or home directory"
    Category := "filesystem" }

/-- Danger pattern `rm\s+(-[rRf]+\s+)*/\*(\s|$)`. -/
def dangerPat2 : Pattern :=
  { re := reSeq [.chr 'r', .chr 'm', RE.plus clsSpc,
      .star (reSeq [.chr '-', RE.plus clsRRf, RE.plus clsSpc]),
      .chr '/', .chr '*', .alt clsSpc .eos]
    src := "rm\\s+(-[rRf]+\\s+)*/\\*(\\s|$)"
    Level := .Danger
    Description := "Delete everything in root directory"
    Category := "filesystem" }

/-- Danger pattern `rm\s+-[rRf]*[rRf][rRf]*\s+\*(\s|$)`. -/
def dangerPat3 : Pattern :=
  { re := reSeq [.chr 'r', .chr 'm', RE.plus clsSpc, .chr '-',
      .star clsRRf, clsRRf, .star clsRRf, RE.plus clsSpc, .chr '*', .alt clsSpc .eos]
    src := "rm\\s+-[rRf]*[rRf][rRf]*\\s+\\*(\\s|$)"
    Level := .Danger
    Description := "Delete all files in current directory with force/recursive flags"
    Category := "filesystem" }

/-- Danger pattern `dd\s+.*of=/dev/[sh]d[a-z]+`. -/
def dangerPat4 : Pattern :=
  { re := reSeq [.chr 'd', .chr 'd', RE.plus clsSpc, .star dotAny,
      reStr ("of=/dev/".data), .cls (fun c => c = 's' || c = 'h'), .chr 'd',
      RE.plus (.cls (fun c => 'a' ≤ c && c ≤ 'z'))]
    src := "dd\\s+.*of=/dev/[sh]d[a-z]+"
    Level := .Danger
    Description := "Direct disk write (dd to block device)"
    Category := "filesystem" }

/-- Danger pattern `mkfs\.[a-z0-9]+\s+/dev/`. -/
def dangerPat5 : Pattern :=
  { re := reSeq [reStr ("mkfs.".data),
      RE.plus (.cls (fun c => ('a' ≤ c && c ≤ 'z') || ('0' ≤ c && c ≤ '9'))),
      RE.plus clsSpc, reStr ("/dev/".data)]
    src := "mkfs\\.[a-z0-9]+\\s+/dev/"
    Level := .Danger
    Description := "Filesystem format on a device"
    Category := "filesystem" }

/-- Danger pattern `>\s*/dev/[sh]d[a-z]`. -/
def dangerPat6 : Pattern :=
  { re := reSeq [.chr '>', .star clsSpc, reStr ("/dev/".data),
      .cls (fun c => c = 's' || c = 'h'), .chr 'd',
      .cls (fun c => 'a' ≤ c && c ≤ 'z')]
    src := ">\\s*/dev/[sh]d[a-z]"
    Level := .Danger
    Description := "Redirect output to disk device"
    Category := "filesystem" }

/-- Danger pattern `:\s*\(\s*\)\s*\{[^}]*:\s*\|\s*:` (fork bomb). -/
def dangerPat7 : Pattern :=
  { re := reSeq [.chr ':', .star clsSpc, .chr '(', .star clsSpc, .chr ')',
      .star clsSpc, .chr '\x7b', .star (.cls (fun c => !(c = '\x7d'))),
      .chr ':', .star clsSpc, .chr '|', .star clsSpc, .chr ':']
    src := ":\\s*\\(\\s*\\)\\s*\\\x7b[^\x7d]*:\\s*\\|\\s*:"
    Level := .Danger
    Description := "Fork bomb pattern detected"
    Category := "system" }

/-- Danger pattern `chmod\s+(-[rR]+\s+)*(000|777)\s+/(\s|$)`. -/
def dangerPat8 : Pattern :=
  { re := reSeq [reStr ("chmod".data), RE.plus clsSpc,
      .star (reSeq [.chr '-', RE.plus clsRR, RE.plus clsSpc]),
      .alt (reStr ("000".data)) (reStr ("777".data)),
      RE.plus clsSpc, .chr '/', .alt clsSpc .eos]
    src := "chmod\\s+(-[rR]+\\s+)*(000|777)\\s+/(\\s|$)"
    Level := .Danger
    Description := "Dangerous permission change on root filesystem"
    Category := "filesystem" }

/-- Danger pattern `chown\s+(-[rR]+\s+)*.+\s+/(\s|$)`. -/
def dangerPat9 : Pattern :=
  { re := reSeq [reStr ("chown".data), RE.plus clsSpc,
      .star (reSeq [.chr '-', RE.plus clsRR, RE.plus clsSpc]),
      RE.plus dotAny, RE.plus clsSpc, .chr '/', .alt clsSpc .eos]
    src := "chown\\s+(-[rR]+\\s+)*.+\\s+/(\\s|$)"
    Level := .Danger
    Description := "Recursive ownership change on root filesystem"
    Category := "filesystem" }

/-- Danger pattern `mv\s+/\s+`. -/
def dangerPat10 : Pattern :=
  { re := reSeq [.chr 'm', .chr 'v', RE.plus clsSpc, .chr '/', RE.plus clsSpc]
    src := "mv\\s+/\\s+"
    Level := .Danger
    Description := "Move root directory"
    Category := "filesystem" }

/-- Danger pattern `cat\s+/dev/u?random\s*>\s*/dev/sd`. -/
def dangerPat11 : Pattern :=
  { re := reSeq [reStr ("cat".data), RE.plus clsSpc, reStr ("/dev/".data),
      .opt (.chr 'u'), reStr ("random".data), .star clsSpc, .chr '>',
      .star clsSpc, reStr ("/dev/sd".data)]
    src := "cat\\s+/dev/u?random\\s*>\\s*/dev/sd"
    Level := .Danger
    Description := "Write random data to disk device"
    Category := "filesystem" }

/-- Danger pattern `>\s*/etc/(passwd|shadow)`. -/
def dangerPat12 : Pattern :=
  { re := reSeq [.chr '>', .star clsSpc, reStr ("/etc/".data),
      .alt (reStr ("passwd".data)) (reStr ("shadow".data))]
    src := ">\\s*/etc/(passwd|shadow)"
    Level := .Danger
    Description := "Overwrite authentication files"
    Category := "system" }

/-- Model of `safety.DangerPatterns`, in source order. -/
def DangerPatterns : List Pattern :=
  [dangerPat1, dangerPat2, dangerPat3, dangerPat4, dangerPat5, dangerPat6,
   dangerPat7, dangerPat8, dangerPat9, dangerPat10, dangerPat11, dangerPat12]

/-- Caution pattern `sudo\s+`. -/
def cautionPat1 : Pattern :=
  { re := reSeq [reStr ("sudo".data), RE.plus clsSpc]
    src := "sudo\\s+"
    Level := .Caution
    Description := "Command requires elevated privileges"
    Category := "system" }

/-- Caution pattern `curl\s+.*\|\s*(ba)?sh`. -/
def cautionPat2 : Pattern :=
  { re := reSeq [reStr ("curl".data), RE.plus clsSpc, .star dotAny, .chr '|',
      .star clsSpc, .opt (reStr ("ba".data)), reStr ("sh".data)]
    src := "curl\\s+.*\\|\\s*(ba)?sh"
    Level := .Caution
    Description := "Piping remote script directly to shell"
    Category := "network" }

/-- Caution pattern `wget\s+.*\|\s*(ba)?sh`. -/
def cautionPat3 : Pattern :=
  { re := reSeq [reStr ("wget".data), RE.plus clsSpc, .star dotAny, .chr '|',
      .star clsSpc, .opt (reStr ("ba".data)), reStr ("sh".data)]
    src := "wget\\s+.*\\|\\s*(ba)?sh"
    Level := .Caution
    Description := "Piping remote script directly to shell"
    Category := "network" }

/-- Caution pattern `eval\s+`. -/
def cautionPat4 : Pattern :=
  { re := reSeq [reStr ("eval".data), RE.plus clsSpc]
    src := "eval\\s+"
    Level := .Caution
    Description := "Dynamic command execution with eval"
    Category := "system" }

/-- Caution pattern `rm\s+-[rRf]+\s+`. -/
def cautionPat5 : Pattern :=
  { re := reSeq [.chr 'r', .chr 'm', RE.plus clsSpc, .chr '-', RE.plus clsRRf,
      RE.plus clsSpc]
    src := "rm\\s+-[rRf]+\\s+"
    Level := .Caution
    Description := "Recursive or forced file deletion"
    Category := "filesystem" }

/-- Caution pattern `chmod\s+-[rR]+\s+`. -/
def cautionPat6 : Pattern :=
  { re := reSeq [reStr ("chmod".data), RE.plus clsSpc, .chr '-', RE.plus clsRR,
      RE.plus clsSpc]
    src := "chmod\\s+-[rR]+\\s+"
    Level := .Caution
    Description := "Recursive permission change"
    Category := "filesystem" }

/-- Caution pattern `chown\s+-[rR]+\s+`. -/
def cautionPat7 : Pattern :=
  { re := reSeq [reStr ("chown".data), RE.plus clsSpc, .chr '-', RE.plus clsRR,
      RE.plus clsSpc]
    src := "chown\\s+-[rR]+\\s+"
    Level := .Caution
    Description := "Recursive ownership change"
    Category := "filesystem" }

/-- Caution pattern `pkill\s+`. -/
def cautionPat8 : Pattern :=
  { re := reSeq [reStr ("pkill".data), RE.plus clsSpc]
    src := "pkill\\s+"
    Level := .Caution
    Description := "Kill processes by pattern"
    Category := "system" }

/-- Caution pattern `killall\s+`. -/
def cautionPat9 : Pattern :=
  { re := reSeq [reStr ("killall".data), RE.plus clsSpc]
    src := "killall\\s+"
    Level := .Caution
    Description := "Kill all processes by name"
    Category := "system" }

/-- Model of `safety.CautionPatterns`, in source order. -/
def CautionPatterns : List Pattern :=
  [cautionPat1, cautionPat2, cautionPat3, cautionPat4, cautionPat5,
   cautionPat6, cautionPat7, cautionPat8, cautionPat9]

/-- A wrapper-extraction regex, split at its single capture group:
the whole pattern is `pre ( grp ) post`. -/
structure WrapPat where
  pre : RE
  grp : RE
  post : RE

/-- Wrapper `sudo\s+(.+)`. -/
def wrapSudo : WrapPat :=
  { pre := reSeq [reStr ("sudo".data), RE.plus clsSpc]
    grp := RE.plus dotAny
    post := .eps }

/-- Wrapper `sh\s+-c\s+["'](.+)["']`. -/
def wrapShC : WrapPat :=
  { pre := reSeq [.chr 's', .chr 'h', RE.plus clsSpc, .chr '-', .chr 'c',
      RE.plus clsSpc, clsQuote]
    grp := RE.plus dotAny
    post := clsQuote }

/-- Wrapper `bash\s+-c\s+["'](.+)["']`. -/
def wrapBashC : WrapPat :=
  { pre := reSeq [reStr ("bash".data), RE.plus clsSpc, .chr '-', .chr 'c',
      RE.plus clsSpc, clsQuote]
    grp := RE.plus dotAny
    post := clsQuote }

/-- Wrapper `zsh\s+-c\s+["'](.+)["']`. -/
def wrapZshC : WrapPat :=
  { pre := reSeq [reStr ("zsh".data), RE.plus clsSpc, .chr '-', .chr 'c',
      RE.plus clsSpc, clsQuote]
    grp := RE.plus dotAny
    post := clsQuote }

/-- Wrapper `eval\s+["']?(.+?)["']?$`. -/
def wrapEvalCmd : WrapPat :=
  { pre := reSeq [reStr ("eval".data), RE.plus clsSpc, .opt clsQuote]
    grp := RE.lplus dotAny
    post := .cat (.opt clsQuote) .eos }

/-- Model of `safety.ShellWrappers` (compiled), in source order. -/
def ShellWrappers : List WrapPat :=
  [wrapSudo, wrapShC, wrapBashC, wrapZshC, wrapEvalCmd]

/-- Match a wrapper pattern at the very start of `s`; on success return the
text consumed by the capture group (Go submatch 1). -/
def wrapAt (fuel : Nat) (w : WrapPat) (s : List Char) : Option (List Char) :=
  mLoop fuel w.pre s (fun s1 =>
    mLoop fuel w.grp s1 (fun s2 =>
      (mLoop fuel w.post s2 (fun _ => some ())).map
        (fun _ => s1.take (s1.length - s2.length))))

/-- Model of `Regexp.FindStringSubmatch` restricted to the first capture
group: try start positions left to right, and at the leftmost position that
matches return the backtracking-first capture. -/
def findSubmatch (fuel : Nat) (w : WrapPat) : List Char → Option (List Char)
  | [] => wrapAt fuel w []
  | s@(_ :: rest) => (wrapAt fuel w s).orElse (fun _ => findSubmatch fuel w rest)

/-- The zero value `CheckResult{Level: Safe}` used by the Go source. -/
def safeResult : CheckResult :=
  { Level := .Safe, Pattern := "", Description := "", Category := "" }

/-- Shared body of `Checker.checkPatterns` and `Checker.checkCautionPatterns`
(the two Go methods are verbatim copies of the same loop over different
registries): return the metadata of the first matching pattern, else the
Safe zero value. -/
def checkPatternList : List Pattern → List Char → CheckResult
  | [], _ => safeResult
  | p :: rest, cmd =>
    if matchString p.re cmd then
      { Level := p.Level, Pattern := p.src, Description := p.Description,
        Category := p.Category }
    else checkPatternList rest cmd

/-- Model of `Checker.checkPatterns` (danger registry only). -/
def checkPatterns (cmd : List Char) : CheckResult :=
  checkPatternList DangerPatterns cmd

/-- Model of `Checker.checkCautionPatterns`. -/
def checkCautionPatterns (cmd : List Char) : CheckResult :=
  checkPatternList CautionPatterns cmd

/-- Loop body of `Checker.checkNestedCommands` over the wrapper registry;
`recur` is the recursive call at depth + 1. -/
def checkNestedLoop (recur : List Char → CheckResult) :
    List WrapPat → List Char → CheckResult → CheckResult
  | [], _, highest => highest
  | w :: rest, cmd, highest =>
    match findSubmatch (engineFuel cmd) w cmd with
    | none => checkNestedLoop recur rest cmd highest
    | some m =>
      let innerCmd := trimSpace m
      if innerCmd = [] then checkNestedLoop recur rest cmd highest
      else
        let normalizedInner := normalizeL innerCmd
        let innerResult := checkPatterns normalizedInner
        if innerResult.Level = .Danger then
          { innerResult with Pattern := innerResult.Pattern ++ " (via wrapper)" }
        else
          let nestedResult := recur normalizedInner
          let h1 :=
            if highest.Level.toNat < nestedResult.Level.toNat then nestedResult
            else highest
          let h2 :=
            if h1.Level.toNat < innerResult.Level.toNat then innerResult else h1
          checkNestedLoop recur rest cmd h2

/-- The recursion ceiling of `checkNestedCommands`. -/
def maxDepth : Nat := 5

/-- Model of `Checker.checkNestedCommands`.  The Go code carries the current
depth upward and stops once `depth >= maxDepth`; here the first argument is
the remaining budget `maxDepth - depth`, so the guard becomes the zero
case and the `depth + 1` recursive call passes `fuel`. -/
def checkNestedCommands : Nat → List Char → CheckResult
  | 0, _ => safeResult
  | fuel + 1, cmd => checkNestedLoop (checkNestedCommands fuel) ShellWrappers cmd safeResult

/-- Model of `Checker.Check` on character lists. -/
def CheckL (cmd : List Char) : CheckResult :=
  let normalized := normalizeL cmd
  let result := checkPatterns normalized
  if result.Level = .Danger then result
  else
    let nestedResult := checkNestedCommands maxDepth normalized
    if result.Level.toNat < nestedResult.Level.toNat then nestedResult
    else if result.Level = .Safe then checkCautionPatterns normalized
    else result

/-- Model of `Checker.Check` (with the default registries of `NewChecker`). -/
def Check (cmd : String) : CheckResult :=
  CheckL cmd.data

/-- The pattern loop returns the metadata of the first matching pattern of
the registry, in registry order, and the Safe zero value when none match. -/
theorem checkPatternList_eq_find (pats : List Pattern) (cmd : List Char) :
    checkPatternList pats cmd =
      match pats.find? (fun p => matchString p.re cmd) with
      | some p =>
        { Level := p.Level, Pattern := p.src, Description := p.Description,
          Category := p.Category }
      | none => safeResult := by
  induction pats with
  | nil => rfl
  | cons p rest ih =>
    simp only [checkPatternList, List.find?]
    cases h : matchString p.re cmd <;> simp [h, ih]

/-- Every pattern of the Danger registry carries level Danger. -/
theorem level_of_mem_DangerPatterns {p : Pattern} (hp : p ∈ DangerPatterns) :
    p.Level = .Danger := by
  fin_cases hp <;> rfl

/-- Every pattern of the Caution registry carries level Caution. -/
theorem level_of_mem_CautionPatterns {p : Pattern} (hp : p ∈ CautionPatterns) :
    p.Level = .Caution := by
  fin_cases hp <;> rfl

/-- No pattern text of the Danger registry ends with the wrapper annotation. -/
theorem src_of_mem_DangerPatterns_no_wrapper_suffix {p : Pattern}
    (hp : p ∈ DangerPatterns) :
    (" (via wrapper)".data).isSuffixOf p.src.data = false := by
  fin_cases hp <;> decide

/-- Unfolding of `CheckL` into its cascade of decisions. -/
theorem CheckL_eq_cascade (cmd : List Char) :
    CheckL cmd =
      (if (checkPatterns (normalizeL cmd)).Level = .Danger then
        checkPatterns (normalizeL cmd)
      else if (checkPatterns (normalizeL cmd)).Level.toNat <
          (checkNestedCommands maxDepth (normalizeL cmd)).Level.toNat then
        checkNestedCommands maxDepth (normalizeL cmd)
      else if (checkPatterns (normalizeL cmd)).Level = .Safe then
        checkCautionPatterns (normalizeL cmd)
      else checkPatterns (normalizeL cmd)) := rfl

/-- If some Danger pattern matches the normalized command, `CheckL` returns
Danger with the metadata of the first such pattern, short-circuiting before
the nested and Caution phases. -/
theorem CheckL_of_find_danger {cmd : List Char} {p : Pattern}
    (h : DangerPatterns.find? (fun q => matchString q.re (normalizeL cmd)) = some p) :
    CheckL cmd =
      { Level := .Danger, Pattern := p.src, Description := p.Description,
        Category := p.Category } := by
  have hlev : p.Level = .Danger :=
    level_of_mem_DangerPatterns (List.mem_of_find?_eq_some h)
  have hcp : checkPatterns (normalizeL cmd) =
      { Level := p.Level, Pattern := p.src, Description := p.Description,
        Category := p.Category } := by
    rw [checkPatterns, checkPatternList_eq_find, h]
  rw [CheckL_eq_cascade, hcp, hlev]
  simp

/-- If no Danger pattern matches the normalized command and the nested phase
comes back Safe, `CheckL` is exactly the Caution-registry check of the
normalized command. -/
theorem CheckL_of_no_danger {cmd : List Char}
    (h1 : DangerPatterns.find? (fun q => matchString q.re (normalizeL cmd)) = none)
    (h2 : (checkNestedCommands maxDepth (normalizeL cmd)).Level = .Safe) :
    CheckL cmd = checkCautionPatterns (normalizeL cmd) := by
  have hcp : checkPatterns (normalizeL cmd) = safeResult := by
    rw [checkPatterns, checkPatternList_eq_find, h1]
  rw [CheckL_eq_cascade, hcp, h2]
  simp [safeResult, DangerLevel.toNat]

/-- Any result `CheckL` reports with level Safe is the Safe zero value:
empty pattern, description and category. -/
theorem CheckL_safe_fields {cmd : List Char}
    (h : (CheckL cmd).Level = .Safe) : CheckL cmd = safeResult := by
  rw [CheckL_eq_cascade] at h ⊢
  cases hf : DangerPatterns.find? (fun q => matchString q.re (normalizeL cmd)) with
  | some p =>
    have hlev : p.Level = .Danger :=
      level_of_mem_DangerPatterns (List.mem_of_find?_eq_some hf)
    have hcp : checkPatterns (normalizeL cmd) =
        { Level := p.Level, Pattern := p.src, Description := p.Description,
          Category := p.Category } := by
      rw [checkPatterns, checkPatternList_eq_find, hf]
    rw [hcp, hlev] at h
    simp at h
  | none =>
    have hcp : checkPatterns (normalizeL cmd) = safeResult := by
      rw [checkPatterns, checkPatternList_eq_find, hf]
    rw [hcp] at h ⊢
    by_cases hn : (safeResult.Level.toNat <
        (checkNestedCommands maxDepth (normalizeL cmd)).Level.toNat)
    · rw [if_neg (by simp [safeResult]), if_pos hn] at h ⊢
      cases hlev : (checkNestedCommands maxDepth (normalizeL cmd)).Level <;>
        simp [hlev, safeResult, DangerLevel.toNat] at hn h ⊢
    · rw [if_neg (by simp [safeResult]), if_neg hn,
        if_pos (show safeResult.Level = DangerLevel.Safe from rfl)] at h ⊢
      cases hg : CautionPatterns.find? (fun q => matchString q.re (normalizeL cmd)) with
      | some p =>
        have hlev : p.Level = .Caution :=
          level_of_mem_CautionPatterns (List.mem_of_find?_eq_some hg)
        have hcc : checkCautionPatterns (normalizeL cmd) =
            { Level := p.Level, Pattern := p.src, Description := p.Description,
              Category := p.Category } := by
          rw [checkCautionPatterns, checkPatternList_eq_find, hg]
        rw [hcc, hlev] at h
        simp at h
      | none =>
        rw [checkCautionPatterns, checkPatternList_eq_find, hg]

/-- A list whose head fails the predicate is fixed by `dropWhile`. -/
theorem dropWhile_eq_self_of_head {α : Type} {p : α → Bool} {l : List α}
    (h : ∀ c, l.head? = some c → p c = false) : l.dropWhile p = l := by
  cases l with
  | nil => rfl
  | cons a t => simp [List.dropWhile_cons, h a rfl]

/-- The head surviving `dropWhile` fails the predicate. -/
theorem head_dropWhile_false {α : Type} {p : α → Bool} {l : List α} {c : α}
    (h : (l.dropWhile p).head? = some c) : p c = false := by
  induction l with
  | nil => simp [List.dropWhile] at h
  | cons a t ih =>
    rw [List.dropWhile_cons] at h
    by_cases hp : p a
    · exact ih (by simpa [hp] using h)
    · have hac : a = c := by simpa [hp] using h
      subst hac
      simpa using hp

/-- Heads agree along a prefix. -/
theorem head?_of_isPrefix {α : Type} {t l : List α} {c : α} (h : t <+: l)
    (hc : t.head? = some c) : l.head? = some c := by
  obtain ⟨r, rfl⟩ := h
  cases t with
  | nil => simp at hc
  | cons a t' => simpa using hc

/-- `trimRight` only removes characters from the back. -/
theorem trimRight_prefix_self (l : List Char) : trimRight l <+: l := by
  have h := List.dropWhile_suffix (l := l.reverse) goIsSpace
  have h2 := List.reverse_prefix.mpr h
  simpa [trimRight] using h2

/-- The first character of a trimmed string is not white space. -/
theorem head_trimSpace_false {l : List Char} {c : Char}
    (h : (trimSpace l).head? = some c) : goIsSpace c = false := by
  have hp : (trimLeft l).head? = some c :=
    head?_of_isPrefix (trimRight_prefix_self (trimLeft l)) h
  exact head_dropWhile_false hp

/-- The last character of a trimmed string is not white space. -/
theorem getLast_trimSpace_false {l : List Char} {c : Char}
    (h : (trimSpace l).getLast? = some c) : goIsSpace c = false := by
  have h' : ((trimLeft l).reverse.dropWhile goIsSpace).head? = some c := by
    rw [← List.getLast?_reverse]
    simpa [trimSpace, trimRight] using h
  exact head_dropWhile_false h'

/-- Not white space in the Unicode sense implies not a `\s` character. -/
theorem isSpc_eq_false_of_goIsSpace {c : Char} (h : goIsSpace c = false) :
    isSpc c = false := by
  cases hs : isSpc c
  · rfl
  · exact absurd (goIsSpace_of_isSpc hs) (by simp [h])

/-- The collapse worker preserves a non-space head. -/
theorem head_collapseSpacesAux_false {l : List Char} {c : Char}
    (hc : l.head? = some c) (hns : isSpc c = false) :
    (collapseSpacesAux false l).head? = some c := by
  cases l with
  | nil => simp at hc
  | cons a t =>
    simp only [List.head?_cons, Option.some.injEq] at hc
    subst hc
    simp [collapseSpacesAux, hns]

/-- With the in-run flag set, the next emitted character is not a `\s`
character. -/
theorem head_collapseSpacesAux_true {l : List Char} {c : Char}
    (h : (collapseSpacesAux true l).head? = some c) : isSpc c = false := by
  induction l with
  | nil => simp [collapseSpacesAux] at h
  | cons a t ih =>
    by_cases hs : isSpc a
    · exact ih (by simpa [collapseSpacesAux, hs] using h)
    · rw [show collapseSpacesAux true (a :: t) = a :: collapseSpacesAux false t by
        simp [collapseSpacesAux, hs]] at h
      simp only [List.head?_cons, Option.some.injEq] at h
      rw [← h]
      simpa using hs

/-- Dropping the head keeps `getLast?` on lists with a nonempty tail. -/
theorem getLast?_cons_of_ne_nil {a : Char} {w : List Char} (h : w ≠ []) :
    (a :: w).getLast? = w.getLast? := by
  cases w with
  | nil => exact absurd rfl h
  | cons b t => exact List.getLast?_cons_cons

/-- The collapse worker preserves a non-space last character. -/
theorem getLast_collapseSpacesAux {l : List Char} {c : Char}
    (hc : l.getLast? = some c) (hns : isSpc c = false) :
    ∀ b, (collapseSpacesAux b l).getLast? = some c := by
  induction l with
  | nil => simp at hc
  | cons a t ih =>
    intro b
    cases t with
    | nil =>
      simp only [List.getLast?_singleton, Option.some.injEq] at hc
      subst hc
      simp [collapseSpacesAux, hns]
    | cons a2 t2 =>
      rw [List.getLast?_cons_cons] at hc
      have hne : ∀ b', collapseSpacesAux b' (a2 :: t2) ≠ [] := by
        intro b' hnil
        have := ih hc b'
        rw [hnil] at this
        simp at this
      by_cases hs : isSpc a
      · cases b with
        | true => simpa [collapseSpacesAux, hs] using ih hc true
        | false =>
          rw [show collapseSpacesAux false (a :: a2 :: t2) =
              ' ' :: collapseSpacesAux true (a2 :: t2) by simp [collapseSpacesAux, hs]]
          rw [getLast?_cons_of_ne_nil (hne true)]
          exact ih hc true
      · rw [show collapseSpacesAux b (a :: a2 :: t2) =
            a :: collapseSpacesAux false (a2 :: t2) by simp [collapseSpacesAux, hs]]
        rw [getLast?_cons_of_ne_nil (hne false)]
        exact ih hc false

/-- Condition on the character after an emitted space. -/
def okAfterSpace : Option Char → Bool
  | some d => !isSpc d
  | none => true

/-- Normal form for the whitespace collapse: every `\s` character is a
single ASCII space not followed by another `\s` character. -/
def wellSpaced : List Char → Bool
  | [] => true
  | c :: rest =>
    ((!isSpc c) || (c = ' ' && okAfterSpace rest.head?)) && wellSpaced rest

/-- The collapse worker always produces a well-spaced list. -/
theorem wellSpaced_collapseSpacesAux (l : List Char) :
    ∀ b, wellSpaced (collapseSpacesAux b l) = true := by
  induction l with
  | nil => intro b; rfl
  | cons a t ih =>
    intro b
    by_cases hs : isSpc a
    · cases b with
      | true => simpa [collapseSpacesAux, hs] using ih true
      | false =>
        rw [show collapseSpacesAux false (a :: t) =
            ' ' :: collapseSpacesAux true t by simp [collapseSpacesAux, hs]]
        rw [wellSpaced]
        cases hh : (collapseSpacesAux true t).head? with
        | none => simp [okAfterSpace, hh, ih true]
        | some d =>
          have hd := head_collapseSpacesAux_true hh
          simp [okAfterSpace, hh, hd, ih true]
    · rw [show collapseSpacesAux b (a :: t) =
          a :: collapseSpacesAux false t by simp [collapseSpacesAux, hs]]
      rw [wellSpaced]
      simp [hs, ih false]

/-- A well-spaced list is fixed by the collapse worker (for the in-run flag,
provided the head is not a `\s` character). -/
theorem collapseSpacesAux_of_wellSpaced :
    ∀ l : List Char, wellSpaced l = true →
      collapseSpacesAux false l = l ∧
        ((∀ d, l.head? = some d → isSpc d = false) → collapseSpacesAux true l = l) := by
  intro l
  induction l with
  | nil => exact fun _ => ⟨rfl, fun _ => rfl⟩
  | cons a t ih =>
    intro hw
    rw [wellSpaced, Bool.and_eq_true] at hw
    obtain ⟨hcond, hwt⟩ := hw
    obtain ⟨ih1, ih2⟩ := ih hwt
    by_cases hs : isSpc a
    · rw [Bool.or_eq_true] at hcond
      rcases hcond with hcond | hcond
      · simp [hs] at hcond
      · rw [Bool.and_eq_true] at hcond
        obtain ⟨ha, hok⟩ := hcond
        have ha' : a = ' ' := by simpa using ha
        have htt : collapseSpacesAux true t = t := by
          apply ih2
          intro d hd
          rw [hd] at hok
          simpa [okAfterSpace] using hok
        constructor
        · rw [show collapseSpacesAux false (a :: t) =
              ' ' :: collapseSpacesAux true t by simp [collapseSpacesAux, hs]]
          rw [htt, ha']
        · intro hh
          have := hh a rfl
          rw [this] at hs
          simp at hs
    · constructor
      · simp [collapseSpacesAux, hs, ih1]
      · intro _
        simp [collapseSpacesAux, hs, ih1]

/-- Slash collapsing preserves the head character. -/
theorem head?_replaceDoubleSlash (l : List Char) :
    (replaceDoubleSlash l).head? = l.head? := by
  induction l using replaceDoubleSlash.induct with
  | case1 rest ih => rfl
  | case2 c rest h ih => rw [replaceDoubleSlash.eq_2 c rest h]; rfl
  | case3 => rfl

/-- Slash collapsing preserves nonemptiness. -/
theorem replaceDoubleSlash_ne_nil {l : List Char} (h : l ≠ []) :
    replaceDoubleSlash l ≠ [] := by
  induction l using replaceDoubleSlash.induct with
  | case1 rest ih => simp [replaceDoubleSlash.eq_1]
  | case2 c rest h2 ih => rw [replaceDoubleSlash.eq_2 c rest h2]; simp
  | case3 => exact absurd rfl h

/-- Slash collapsing keeps the last character or ends in a slash. -/
theorem getLast?_replaceDoubleSlash (l : List Char) :
    (replaceDoubleSlash l).getLast? = l.getLast? ∨
      (replaceDoubleSlash l).getLast? = some '/' := by
  induction l using replaceDoubleSlash.induct with
  | case1 rest ih =>
    rw [replaceDoubleSlash.eq_1]
    cases rest with
    | nil => right; rfl
    | cons d t =>
      have hne : replaceDoubleSlash (d :: t) ≠ [] := replaceDoubleSlash_ne_nil (by simp)
      have e1 : (('/' : Char) :: replaceDoubleSlash (d :: t)).getLast? =
          (replaceDoubleSlash (d :: t)).getLast? := getLast?_cons_of_ne_nil hne
      have e2 : (('/' : Char) :: ('/' : Char) :: d :: t).getLast? = (d :: t).getLast? := by
        rw [List.getLast?_cons_cons, List.getLast?_cons_cons]
      rcases ih with h | h
      · left; rw [e1, h, e2]
      · right; rw [e1, h]
  | case2 c rest h2 ih =>
    rw [replaceDoubleSlash.eq_2 c rest h2]
    cases rest with
    | nil => left; rfl
    | cons d t =>
      have hne : replaceDoubleSlash (d :: t) ≠ [] := replaceDoubleSlash_ne_nil (by simp)
      have e1 : (c :: replaceDoubleSlash (d :: t)).getLast? =
          (replaceDoubleSlash (d :: t)).getLast? := getLast?_cons_of_ne_nil hne
      have e2 : (c :: d :: t).getLast? = (d :: t).getLast? := List.getLast?_cons_cons
      rcases ih with h | h
      · left; rw [e1, h, e2]
      · right; rw [e1, h]
  | case3 => left; rfl

/-- Slash collapsing preserves well-spacedness. -/
theorem wellSpaced_replaceDoubleSlash {l : List Char} (hw : wellSpaced l = true) :
    wellSpaced (replaceDoubleSlash l) = true := by
  induction l using replaceDoubleSlash.induct with
  | case1 rest ih =>
    rw [replaceDoubleSlash.eq_1]
    have hwr : wellSpaced rest = true := by
      rw [wellSpaced, Bool.and_eq_true] at hw
      have h2 := hw.2
      rw [wellSpaced, Bool.and_eq_true] at h2
      exact h2.2
    rw [wellSpaced, Bool.and_eq_true]
    exact ⟨by simp [isSpc], ih hwr⟩
  | case2 c rest h2 ih =>
    rw [replaceDoubleSlash.eq_2 c rest h2]
    rw [wellSpaced, Bool.and_eq_true] at hw
    obtain ⟨hcond, hwr⟩ := hw
    rw [wellSpaced, Bool.and_eq_true, head?_replaceDoubleSlash]
    exact ⟨hcond, ih hwr⟩
  | case3 => exact hw

/-- One collapse pass never lengthens the string. -/
theorem length_replaceDoubleSlash_le (l : List Char) :
    (replaceDoubleSlash l).length ≤ l.length := by
  induction l using replaceDoubleSlash.induct with
  | case1 rest ih =>
    rw [replaceDoubleSlash.eq_1]
    simp only [List.length_cons]
    omega
  | case2 c rest h2 ih =>
    rw [replaceDoubleSlash.eq_2 c rest h2]
    simp only [List.length_cons]
    omega
  | case3 => exact Nat.le_refl _

/-- A collapse pass that fires strictly shortens the string. -/
theorem length_replaceDoubleSlash_lt {l : List Char}
    (h : containsDoubleSlash l = true) : (replaceDoubleSlash l).length < l.length := by
  induction l using replaceDoubleSlash.induct with
  | case1 rest ih =>
    rw [replaceDoubleSlash.eq_1]
    have := length_replaceDoubleSlash_le rest
    simp only [List.length_cons]
    omega
  | case2 c rest h2 ih =>
    rw [replaceDoubleSlash.eq_2 c rest h2]
    rw [containsDoubleSlash.eq_2 c rest h2] at h
    have := ih h
    simp only [List.length_cons]
    omega
  | case3 => exact absurd h (by simp [containsDoubleSlash])

/-- With fuel at least the length of the string, the collapse loop reaches a
string free of double slashes. -/
theorem containsDoubleSlash_collapseSlashesFuel :
    ∀ (f : Nat) (l : List Char), l.length ≤ f →
      containsDoubleSlash (collapseSlashesFuel f l) = false := by
  intro f
  induction f with
  | zero =>
    intro l hl
    have : l = [] := List.length_eq_zero.mp (Nat.le_zero.mp hl)
    subst this
    rfl
  | succ f ih =>
    intro l hl
    simp only [collapseSlashesFuel]
    by_cases hc : containsDoubleSlash l = true
    · rw [if_pos hc]
      refine ih _ ?_
      have := length_replaceDoubleSlash_lt hc
      omega
    · rw [if_neg hc]
      simpa using hc

/-- A string without double slashes is fixed by the collapse loop. -/
theorem collapseSlashes_of_not_contains {l : List Char}
    (h : containsDoubleSlash l = false) : collapseSlashes l = l := by
  unfold collapseSlashes
  cases hn : l.length with
  | zero => rfl
  | succ n =>
    simp only [collapseSlashesFuel]
    rw [if_neg (by simp [h])]

/-- The collapse loop preserves the head character. -/
theorem head?_collapseSlashesFuel :
    ∀ (f : Nat) (l : List Char), (collapseSlashesFuel f l).head? = l.head? := by
  intro f
  induction f with
  | zero => intro l; rfl
  | succ f ih =>
    intro l
    simp only [collapseSlashesFuel]
    by_cases hc : containsDoubleSlash l = true
    · rw [if_pos hc, ih, head?_replaceDoubleSlash]
    · rw [if_neg hc]

/-- The collapse loop keeps the last character or ends in a slash. -/
theorem getLast?_collapseSlashesFuel :
    ∀ (f : Nat) (l : List Char),
      (collapseSlashesFuel f l).getLast? = l.getLast? ∨
        (collapseSlashesFuel f l).getLast? = some '/' := by
  intro f
  induction f with
  | zero => intro l; left; rfl
  | succ f ih =>
    intro l
    simp only [collapseSlashesFuel]
    by_cases hc : containsDoubleSlash l = true
    · rw [if_pos hc]
      rcases ih (replaceDoubleSlash l) with h | h
      · rcases getLast?_replaceDoubleSlash l with h2 | h2
        · left; rw [h, h2]
        · right; rw [h, h2]
      · right; exact h
    · rw [if_neg hc]; left; rfl

/-- The collapse loop preserves well-spacedness. -/
theorem wellSpaced_collapseSlashesFuel :
    ∀ (f : Nat) (l : List Char), wellSpaced l = true →
      wellSpaced (collapseSlashesFuel f l) = true := by
  intro f
  induction f with
  | zero => intro l h; exact h
  | succ f ih =>
    intro l h
    simp only [collapseSlashesFuel]
    by_cases hc : containsDoubleSlash l = true
    · rw [if_pos hc]
      exact ih _ (wellSpaced_replaceDoubleSlash h)
    · rw [if_neg hc]; exact h

/-- A normalized string does not begin with white space. -/
theorem head_normalizeL_false {l : List Char} {c : Char}
    (h : (normalizeL l).head? = some c) : goIsSpace c = false := by
  rw [normalizeL, collapseSlashes, head?_collapseSlashesFuel] at h
  cases hT : (trimSpace l).head? with
  | none =>
    rw [List.head?_eq_none_iff] at hT
    rw [show collapseSpaces (trimSpace l) = [] by rw [hT]; rfl] at h
    simp at h
  | some d =>
    have hd : goIsSpace d = false := head_trimSpace_false hT
    have := head_collapseSpacesAux_false hT (isSpc_eq_false_of_goIsSpace hd)
    rw [collapseSpaces] at h
    rw [this] at h
    cases h
    exact hd

/-- A normalized string does not end with white space. -/
theorem getLast_normalizeL_false {l : List Char} {c : Char}
    (h : (normalizeL l).getLast? = some c) : goIsSpace c = false := by
  rw [normalizeL, collapseSlashes] at h
  rcases getLast?_collapseSlashesFuel (collapseSpaces (trimSpace l)).length
      (collapseSpaces (trimSpace l)) with he | he
  · rw [he] at h
    cases hT : (trimSpace l).getLast? with
    | none =>
      rw [List.getLast?_eq_none_iff] at hT
      rw [show collapseSpaces (trimSpace l) = [] by rw [hT]; rfl] at h
      simp at h
    | some d =>
      have hd : goIsSpace d = false := getLast_trimSpace_false hT
      have := getLast_collapseSpacesAux hT (isSpc_eq_false_of_goIsSpace hd) false
      rw [collapseSpaces] at h
      rw [this] at h
      cases h
      exact hd
  · rw [he] at h
    cases h
    decide

/-- A normalized string is well spaced. -/
theorem wellSpaced_normalizeL (l : List Char) : wellSpaced (normalizeL l) = true :=
  wellSpaced_collapseSlashesFuel _ _ (wellSpaced_collapseSpacesAux (trimSpace l) false)

/-- A normalized string has no double slash. -/
theorem containsDoubleSlash_normalizeL (l : List Char) :
    containsDoubleSlash (normalizeL l) = false :=
  containsDoubleSlash_collapseSlashesFuel _ _ (Nat.le_refl _)

/-- Normalization on character lists is idempotent. -/
theorem normalizeL_idem (l : List Char) : normalizeL (normalizeL l) = normalizeL l := by
  have hTL : trimLeft (normalizeL l) = normalizeL l :=
    dropWhile_eq_self_of_head (fun c hc => head_normalizeL_false hc)
  have hTR : trimRight (normalizeL l) = normalizeL l := by
    rw [trimRight, dropWhile_eq_self_of_head, List.reverse_reverse]
    intro c hc
    rw [List.head?_reverse] at hc
    exact getLast_normalizeL_false hc
  have hT : trimSpace (normalizeL l) = normalizeL l := by
    rw [trimSpace, hTL, hTR]
  have hC : collapseSpaces (normalizeL l) = normalizeL l :=
    (collapseSpacesAux_of_wellSpaced _ (wellSpaced_normalizeL l)).1
  have hS : collapseSlashes (normalizeL l) = normalizeL l :=
    collapseSlashes_of_not_contains (containsDoubleSlash_normalizeL l)
  calc normalizeL (normalizeL l)
      = collapseSlashes (collapseSpaces (trimSpace (normalizeL l))) := rfl
    _ = normalizeL l := by rw [hT, hC, hS]

/-- C1: every command of the canonical Danger set — `rm -rf /`, `rm -rf ~`,
`rm -rf $HOME`, `rm -rf /*`, the fork bomb, `dd if=/dev/zero of=/dev/sda`,
`mkfs.ext4 /dev/sda1`, `chmod -R 777 /`, `mv / /backup`,
`echo root > /etc/passwd` — classifies as Danger. -/
theorem claim1_canonical_danger_set :
    (Check ("rm -rf /")).Level = .Danger ∧
    (Check ("rm -rf ~")).Level = .Danger ∧
    (Check ("rm -rf $HOME")).Level = .Danger ∧
    (Check ("rm -rf /*")).Level = .Danger ∧
    (Check (":()\x7b :|:& \x7d;:")).Level = .Danger ∧
    (Check ("dd if=/dev/zero of=/dev/sda")).Level = .Danger ∧
    (Check ("mkfs.ext4 /dev/sda1")).Level = .Danger ∧
    (Check ("chmod -R 777 /")).Level = .Danger ∧
    (Check ("mv / /backup")).Level = .Danger ∧
    (Check ("echo root > /etc/passwd")).Level = .Danger :=
  ⟨rfl, rfl, rfl, rfl, rfl, rfl, rfl, rfl, rfl, rfl⟩

/-- C2: the wrapped commands all classify as Danger; for those whose Danger
is found only via nested unwrapping (their top-level Danger check is Safe)
the reported pattern is the matching danger pattern's text with the
" (via wrapper)" suffix, at the same Danger severity as the direct match. -/
theorem claim2_wrapper_unwrapping :
    (Check ("sudo rm -rf /")).Level = .Danger ∧
    ((checkPatterns (normalizeL ("bash -c \x27rm -rf /\x27").data)).Level = .Safe ∧
      Check ("bash -c \x27rm -rf /\x27") =
        { Level := .Danger, Pattern := dangerPat1.src ++ " (via wrapper)",
          Description := dangerPat1.Description, Category := dangerPat1.Category }) ∧
    ((checkPatterns (normalizeL ("sh -c \"rm -rf /\"").data)).Level = .Safe ∧
      Check ("sh -c \"rm -rf /\"") =
        { Level := .Danger, Pattern := dangerPat1.src ++ " (via wrapper)",
          Description := dangerPat1.Description, Category := dangerPat1.Category }) ∧
    ((checkPatterns (normalizeL ("eval \x27rm -rf /\x27").data)).Level = .Safe ∧
      Check ("eval \x27rm -rf /\x27") =
        { Level := .Danger, Pattern := dangerPat1.src ++ " (via wrapper)",
          Description := dangerPat1.Description, Category := dangerPat1.Category }) ∧
    ((checkPatterns (normalizeL ("sudo bash -c \x27rm -rf /\x27").data)).Level = .Safe ∧
      Check ("sudo bash -c \x27rm -rf /\x27") =
        { Level := .Danger, Pattern := dangerPat1.src ++ " (via wrapper)",
          Description := dangerPat1.Description, Category := dangerPat1.Category }) ∧
    (Check ("bash -c \x27rm -rf /\x27")).Level = (Check ("rm -rf /")).Level :=
  ⟨rfl, ⟨rfl, rfl⟩, ⟨rfl, rfl⟩, ⟨rfl, rfl⟩, ⟨rfl, rfl⟩, rfl⟩

/-- C3 counterexample: `rm -rf /tmp/cache` and `rm -rf ./build` do not
classify Safe (the Caution recursive-delete rule `rm\s+-[rRf]+\s+` matches
them), refuting the claim that every listed command is Safe. -/
theorem claim3_counterexample :
    ¬ ((Check ("rm -rf /tmp/cache")).Level = .Safe) ∧
    ¬ ((Check ("rm -rf ./build")).Level = .Safe) := by
  constructor <;> decide

/-- C3 (amended): `ls -la`, `rm file.txt`, `find / -name foo`,
`cat /etc/hosts` and `echo /` classify Safe, while `rm -rf /tmp/cache` and
`rm -rf ./build` classify Caution — never Danger. -/
theorem claim3_amended_safe_set :
    (Check ("ls -la")).Level = .Safe ∧
    (Check ("rm file.txt")).Level = .Safe ∧
    (Check ("find / -name foo")).Level = .Safe ∧
    (Check ("cat /etc/hosts")).Level = .Safe ∧
    (Check ("echo /")).Level = .Safe ∧
    (Check ("rm -rf /tmp/cache")).Level = .Caution ∧
    (Check ("rm -rf ./build")).Level = .Caution :=
  ⟨rfl, rfl, rfl, rfl, rfl, rfl, rfl⟩

/-- C4: the borderline commands `sudo apt update`,
`curl https://example.com | bash`, `rm -rf node_modules`,
`chmod -R 755 ./bin` and `sudo ls -la` classify exactly as Caution. -/
theorem claim4_borderline_caution :
    (Check ("sudo apt update")).Level = .Caution ∧
    (Check ("curl https://example.com | bash")).Level = .Caution ∧
    (Check ("rm -rf node_modules")).Level = .Caution ∧
    (Check ("chmod -R 755 ./bin")).Level = .Caution ∧
    (Check ("sudo ls -la")).Level = .Caution :=
  ⟨rfl, rfl, rfl, rfl, rfl⟩

/-- C5: if any Danger pattern matches the normalized top-level string,
`Check` returns Danger carrying the metadata of the first matching Danger
pattern in registry order, so the Caution registry is never consulted; the
Caution registry is consulted against the top-level normalized string
exactly when the direct Danger check and the nested extraction both yield
Safe, and it then reports the first matching Caution pattern's metadata. -/
theorem claim5_matching_policy (s : String) :
    (∀ p : Pattern,
        DangerPatterns.find? (fun q => matchString q.re (normalizeL s.data)) = some p →
        Check s =
          { Level := .Danger, Pattern := p.src, Description := p.Description,
            Category := p.Category }) ∧
    (DangerPatterns.find? (fun q => matchString q.re (normalizeL s.data)) = none →
      (checkNestedCommands maxDepth (normalizeL s.data)).Level = .Safe →
      (Check s = checkCautionPatterns (normalizeL s.data) ∧
        ∀ p : Pattern,
          CautionPatterns.find? (fun q => matchString q.re (normalizeL s.data)) = some p →
          Check s =
            { Level := .Caution, Pattern := p.src, Description := p.Description,
              Category := p.Category })) := by
  constructor
  · intro p hp
    exact CheckL_of_find_danger hp
  · intro h1 h2
    have hmain : Check s = checkCautionPatterns (normalizeL s.data) :=
      CheckL_of_no_danger h1 h2
    refine ⟨hmain, fun p hp => ?_⟩
    have hlev : p.Level = .Caution :=
      level_of_mem_CautionPatterns (List.mem_of_find?_eq_some hp)
    have hcc : checkCautionPatterns (normalizeL s.data) =
        { Level := p.Level, Pattern := p.src, Description := p.Description,
          Category := p.Category } := by
      rw [checkCautionPatterns, checkPatternList_eq_find, hp]
    rw [hmain, hcc, hlev]

/-- Witness for C5: both branches instantiated at concrete inputs. -/
theorem claim5_matching_policy_witness :
    Check ("rm -rf /") =
      { Level := .Danger, Pattern := dangerPat1.src,
        Description := dangerPat1.Description, Category := dangerPat1.Category } ∧
    Check ("sudo ls -la") =
      { Level := .Caution, Pattern := cautionPat1.src,
        Description := cautionPat1.Description, Category := cautionPat1.Category } :=
  ⟨(claim5_matching_policy ("rm -rf /")).1 dangerPat1 rfl,
   ((claim5_matching_policy ("sudo ls -la")).2 rfl rfl).2 cautionPat1 rfl⟩

/-- C6: nested extraction terminates on every input: the budget handed down
by `Check` is `maxDepth = 5` (depth 0 at a ceiling of 5), a branch whose
budget is exhausted returns the Safe zero value without extracting, and a
command of six chained sudo wrappers still gets a definite classification. -/
theorem claim6_depth_ceiling :
    maxDepth = 5 ∧
    (∀ cmd : List Char, checkNestedCommands 0 cmd = safeResult) ∧
    Check ("sudo sudo sudo sudo sudo sudo ls") =
      { Level := .Caution, Pattern := cautionPat1.src,
        Description := cautionPat1.Description, Category := cautionPat1.Category } ∧
    (Check ("sudo sudo sudo sudo sudo sudo rm -rf /")).Level = .Danger :=
  ⟨rfl, fun _ => rfl, rfl, rfl⟩

/-- C7: `Normalize` is idempotent: normalizing twice equals normalizing
once, for every string. -/
theorem claim7_normalize_idempotent (s : String) :
    Normalize (Normalize s) = Normalize s :=
  congrArg String.mk (normalizeL_idem s.data)

/-- C8: `Check` is total (a Lean function on all of `String`);
`Check ""` is Safe with empty metadata, and every result whose severity is
Safe has empty Pattern, Description and Category fields. -/
theorem claim8_totality_safe_fields :
    Check ("") = { Level := .Safe, Pattern := "", Description := "", Category := "" } ∧
    ∀ s : String, (Check s).Level = .Safe →
      Check s = { Level := .Safe, Pattern := "", Description := "", Category := "" } := by
  refine ⟨rfl, fun s h => ?_⟩
  exact CheckL_safe_fields h

/-- Witness for C8 at the concrete Safe input `ls -la`. -/
theorem claim8_totality_safe_fields_witness :
    (Check ("ls -la")).Level = .Safe ∧
    Check ("ls -la") = { Level := .Safe, Pattern := "", Description := "", Category := "" } :=
  ⟨rfl, claim8_totality_safe_fields.2 ("ls -la") rfl⟩

/-- C9: `rm -rf /var/log/myapp` normalizes to itself, matches no Danger
pattern, and classifies Caution in category "filesystem" by the generic
recursive-delete rule; `"  rm   -rf   //home//user  "` normalizes to
`rm -rf /home/user`, which likewise has no Danger match and classifies
Caution by the same rule. -/
theorem claim9_end_to_end :
    Normalize ("rm -rf /var/log/myapp") = "rm -rf /var/log/myapp" ∧
    (checkPatterns (normalizeL ("rm -rf /var/log/myapp").data)).Level = .Safe ∧
    Check ("rm -rf /var/log/myapp") =
      { Level := .Caution, Pattern := cautionPat5.src,
        Description := cautionPat5.Description, Category := "filesystem" } ∧
    Normalize ("  rm   -rf   //home//user  ") = "rm -rf /home/user" ∧
    (checkPatterns (normalizeL ("  rm   -rf   //home//user  ").data)).Level = .Safe ∧
    Check ("  rm   -rf   //home//user  ") =
      { Level := .Caution, Pattern := cautionPat5.src,
        Description := cautionPat5.Description, Category := "filesystem" } :=
  ⟨rfl, rfl, rfl, rfl, rfl, rfl⟩

/-- C10: Danger matching is unanchored substring search over the whole
normalized command: whenever some Danger pattern matches anywhere in it —
even inside quoted text or a wrapper — `Check` returns Danger directly
from the top-level check, with a Pattern field that does not carry the
" (via wrapper)" suffix. -/
theorem claim10_unanchored_substring (s : String)
    (h : DangerPatterns.any (fun p => matchString p.re (normalizeL s.data)) = true) :
    (Check s).Level = .Danger ∧
    (" (via wrapper)".data).isSuffixOf (Check s).Pattern.data = false := by
  cases hf : DangerPatterns.find? (fun q => matchString q.re (normalizeL s.data)) with
  | none =>
    rw [List.find?_eq_none] at hf
    rw [List.any_eq_true] at h
    obtain ⟨p, hp, hm⟩ := h
    exact absurd hm (hf p hp)
  | some p =>
    have he : Check s =
        { Level := .Danger, Pattern := p.src, Description := p.Description,
          Category := p.Category } := CheckL_of_find_danger hf
    have hmem := List.mem_of_find?_eq_some hf
    rw [he]
    exact ⟨rfl, src_of_mem_DangerPatterns_no_wrapper_suffix hmem⟩

/-- Witness for C10 at a dangerous substring inside quoted text. -/
theorem claim10_unanchored_substring_witness :
    DangerPatterns.any
        (fun p => matchString p.re (normalizeL ("echo \"rm -rf / is bad\"").data)) = true ∧
    ((Check ("echo \"rm -rf / is bad\"")).Level = .Danger ∧
      (" (via wrapper)".data).isSuffixOf
        (Check ("echo \"rm -rf / is bad\"")).Pattern.data = false) :=
  ⟨rfl, claim10_unanchored_substring ("echo \"rm -rf / is bad\"") rfl⟩

end QcmdSafety
